import Mathlib

/-!
Verification of the rollout-prediction notebook
`notebooks/2023-02-21-cross-country-rollouts/my/3_my_rollout_model.ipynb`
of the `unicef-ai4d-poverty-mapping` repository.

The notebook is straight-line orchestration over a geodataframe: load the
rollout grid, generate scaled features, run the pickled model, bin the
predictions into wealth quintiles, and export GeoJSON files.  The dataframe
is embedded as a list of rows, each row an ordered association list of
column name to cell value; external library calls (feature generation,
MinMax scaling, the model's predict, quintile binning, GeoJSON I/O) are
modelled from the specification, as noted on each definition.
-/

namespace PovertyMapping

/-- A cell value of the geodataframe: a string attribute, a numeric attribute,
or a polygon geometry (modelled as its list of coordinate pairs). -/
inductive Value where
  | str : String → Value
  | num : Rat → Value
  | geom : List (Rat × Rat) → Value
deriving DecidableEq, Repr

/-- A dataframe row: an ordered association list of column name to value. -/
abbrev Row := List (String × Value)

/-- A dataframe: a list of rows. -/
abbrev Frame := List Row

/-- Column name assigned in cell-22 of the notebook. -/
def PRWI : String := "Predicted Relative Wealth Index"

/-- Column name assigned in cell-24 of the notebook. -/
def PWC : String := "Predicted Wealth Category (quintile)"

/-- The 8 columns of the input rollout grid, from `aoi.info()` (cell-11). -/
def gridColumns : List String :=
  ["quadkey", "shapeName", "shapeISO", "shapeID", "shapeGroup", "shapeType",
   "pop_count", "geometry"]

/-- Read one cell of a row by column name (first matching entry). -/
def getCell (name : String) : Row → Value
  | [] => Value.str ""
  | kv :: r => if kv.1 = name then kv.2 else getCell name r

/-- Write one cell of a row: replace the column in place when present,
append it at the end otherwise (pandas column-assignment semantics). -/
def setCol (name : String) (v : Value) : Row → Row
  | [] => [(name, v)]
  | kv :: r => if kv.1 = name then (name, v) :: r else kv :: setCol name v r

/-- A whole column of a frame. -/
def getColumn (name : String) (df : Frame) : List Value :=
  df.map (getCell name)

/-- Column assignment `df[name] = vs` on a frame, row by row. -/
def setColumn (name : String) (vs : List Value) (df : Frame) : Frame :=
  List.zipWith (fun r v => setCol name v r) df vs

/-- Read a cell as a number (non-numeric cells count as 0). -/
def asRat : Value → Rat
  | .num q => q
  | _ => 0

/-- Modelled from the spec: sklearn's `MinMaxScaler` (the notebook's
`sklearn_scaler`, applied inside the external `generate_features`) on one
column: each value maps to `(v - min) / (max - min)` over the column's
range, and a constant column maps to 0. -/
def minMaxScale (xs : List Rat) : List Rat :=
  match xs with
  | [] => []
  | x :: rest =>
      let lo := rest.foldl min x
      let hi := rest.foldl max x
      (x :: rest).map (fun v => if hi = lo then 0 else (v - lo) / (hi - lo))

/-- The five ordinal wealth labels, `A` highest to `E` lowest (cell-24). -/
inductive WealthCat where
  | A | B | C | D | E
deriving DecidableEq, Repr, Fintype

/-- The label of a value with sorted rank `r` among `n` values: the bottom
20 percent is `E`, the top 20 percent is `A` (quintiles, cell-24 markdown). -/
def quintileLabel (n r : Nat) : WealthCat :=
  if 5 * r < n then WealthCat.E
  else if 5 * r < 2 * n then WealthCat.D
  else if 5 * r < 3 * n then WealthCat.C
  else if 5 * r < 4 * n then WealthCat.B
  else WealthCat.A

/-- The empirical rank of `v` in `scores`: how many entries are strictly
below `v` (so tied values get the same rank, hence the same label). -/
def strictRank (scores : List Rat) (v : Rat) : Nat :=
  scores.countP (fun w => decide (w < v))

/-- Modelled from the spec: `categorize_wealth_index` (external helper in
`povertymapping.feature_engineering`) splits the score distribution into 5
quintiles, every 20th percentile, labelling each row `A` (highest) to `E`
(lowest). -/
def categorize_wealth_index (scores : List Rat) : List WealthCat :=
  scores.map (fun v => quintileLabel scores.length (strictRank scores v))

/-- The `.astype(str)` conversion of labels in cell-24. -/
def catToString : WealthCat → String
  | .A => "A"
  | .B => "B"
  | .C => "C"
  | .D => "D"
  | .E => "E"

/-- The label column computed in cell-24:
`categorize_wealth_index(rollout_aoi[PRWI]).astype(str)`. -/
def binLabels (df : Frame) : List Value :=
  (categorize_wealth_index ((getColumn PRWI df).map asRat)).map
    (fun c => Value.str (catToString c))

/-- Cell-24: assign the quintile label column from the score column,
`rollout_aoi[PWC] = categorize_wealth_index(rollout_aoi[PRWI]).astype(str)`. -/
def binStep (df : Frame) : Frame :=
  setColumn PWC (binLabels df) df

/-- Assemble a frame of `n` rows from named columns (row `i` holds entry `i`
of every column). -/
def buildFrame (n : Nat) (cols : List (String × List Rat)) : Frame :=
  (List.range n).map (fun i => cols.map (fun c => (c.1, Value.num (c.2.getD i 0))))

/-- Modelled from the spec: the raw per-tile feature columns computed by the
external `generate_features` library call (POI counts, road counts, Ookla
statistics, nightlight radiances), one value per input row; the individual
feature functions are opaque parameters. -/
def rawColumns (rawFeatures : List (String × (Row → Rat))) (df : Frame) :
    List (String × List Rat) :=
  rawFeatures.map (fun nf => (nf.1, df.map nf.2))

/-- Modelled from the spec: the scaled feature columns of `generate_features`,
each raw column passed through the MinMax scaler and suffixed `_scaled`. -/
def scaledColumns (rawFeatures : List (String × (Row → Rat))) (df : Frame) :
    List (String × List Rat) :=
  rawFeatures.map (fun nf => (nf.1 ++ "_scaled", minMaxScale (df.map nf.2)))

/-- Modelled from the spec: `generate_features(rollout_aoi, ...,
scaled_only=False, sklearn_scaler=MinMaxScaler, features_only=True, ...)`
returns a features dataframe with one row per input tile, holding the raw
and the scaled feature columns. -/
def generate_features (rawFeatures : List (String × (Row → Rat))) (df : Frame) :
    Frame :=
  buildFrame df.length (rawColumns rawFeatures df ++ scaledColumns rawFeatures df)

/-- Modelled from the spec: the pickled model's `predict(features) -> scores`
contract; per the spec the output range "is also normalized to [0,1] by
construction of the scaler", so the raw model outputs (an opaque function of
each feature row) are MinMax-normalized. -/
def predictWealth (rawScores : List Rat) : List Rat :=
  minMaxScale rawScores

/-- Python's `"_scaled" in col` membership test of cell-15, via `splitOn`. -/
def containsScaled (col : String) : Bool :=
  (col.splitOn "_scaled").length != 1

/-- The notebook's dataframe variables after the load cell. -/
structure NbState where
  aoi : Frame
  rollout_aoi : Frame
  features : Frame
  raw_features : Frame
  outputs : List (String × Frame)

/-- Cell-11: `aoi = gpd.read_file(rollout_grids_path)`. -/
def loadCell (aoi0 : Frame) : NbState :=
  { aoi := aoi0, rollout_aoi := [], features := [], raw_features := [],
    outputs := [] }

/-- `rollout_aoi = aoi.copy()` (cell-14): an independent copy of the data. -/
def frameCopy (df : Frame) : Frame := df

/-- Cell-14: copy the AOI and generate the features dataframe from it. -/
def featuresCell (rawFeatures : List (String × (Row → Rat))) (s : NbState) :
    NbState :=
  let rollout := frameCopy s.aoi
  { s with rollout_aoi := rollout,
           features := generate_features rawFeatures rollout }

/-- Cell-15: keep the raw columns in `raw_features` and only the `_scaled`
columns in `features`. -/
def splitCell (s : NbState) : NbState :=
  { s with
    raw_features := s.features.map (fun r => r.filter (fun kv => !containsScaled kv.1)),
    features := s.features.map (fun r => r.filter (fun kv => containsScaled kv.1)) }

/-- Cell-22: `rollout_aoi[PRWI] = model.predict(features.values)`. -/
def predictCell (rawScore : Row → Rat) (s : NbState) : NbState :=
  { s with rollout_aoi :=
      (setColumn PRWI ((predictWealth (s.features.map rawScore)).map Value.num)
        s.rollout_aoi) }

/-- Cell-24: bin the predictions into the wealth-category column. -/
def binCell (s : NbState) : NbState :=
  { s with rollout_aoi := binStep s.rollout_aoi }

/-- Cell-28: `rollout_aoi.to_file(...-rollout-output.geojson)`. -/
def exportCell (name : String) (s : NbState) : NbState :=
  { s with outputs := s.outputs ++ [(name, s.rollout_aoi)] }

/-- Pandas `join` on the shared range index: rows are concatenated pairwise. -/
def joinFrames (a b : Frame) : Frame :=
  List.zipWith (· ++ ·) a b

/-- Cell-29: join the raw and scaled features back in and export them. -/
def joinExportCell (name : String) (s : NbState) : NbState :=
  { s with outputs :=
      s.outputs ++ [(name, joinFrames (joinFrames s.rollout_aoi s.raw_features) s.features)] }

/-- The notebook's dataframe pipeline, cells 11 through 29, parameterized by
the opaque raw feature functions and the opaque raw model output. -/
def runNotebook (rawFeatures : List (String × (Row → Rat)))
    (rawScore : Row → Rat) (aoi0 : Frame) : NbState :=
  joinExportCell "2023-02-21-my-rollout-output-with-features.geojson"
    (exportCell "2023-02-21-my-rollout-output.geojson"
      (binCell (predictCell rawScore (splitCell (featuresCell rawFeatures (loadCell aoi0))))))

/-- The frame written to the first exported GeoJSON (cell-28). -/
def exportedFrame (rawFeatures : List (String × (Row → Rat)))
    (rawScore : Row → Rat) (aoi0 : Frame) : Frame :=
  (((runNotebook rawFeatures rawScore aoi0).outputs).map Prod.snd).headD []

/-- The `features` dataframe after cell-15 (only the scaled columns). -/
def pipelineFeaturesFrame (rawFeatures : List (String × (Row → Rat)))
    (aoi0 : Frame) : Frame :=
  (splitCell (featuresCell rawFeatures (loadCell aoi0))).features

/-- The score list computed in cell-22 from the features dataframe. -/
def pipelineScores (rawFeatures : List (String × (Row → Rat)))
    (rawScore : Row → Rat) (aoi0 : Frame) : List Rat :=
  predictWealth ((pipelineFeaturesFrame rawFeatures aoi0).map rawScore)

/-- The ambient process state read by cell-5: the environment variables and
what the two interactive prompts would return if issued. -/
structure CredSession where
  env : String → Option String
  promptUsername : String
  promptPassword : String

/-- What the credential cell produced and whether each prompt was issued. -/
structure CredOutcome where
  username : String
  password : String
  promptedUsername : Bool
  promptedPassword : Bool
deriving DecidableEq, Repr

/-- Cell-5: `username = os.environ.get("EOG_USER", None); username = username
if username is not None else input(...)`, and the same for the password via
`getpass.getpass`; `input`/`getpass` run only in the `else` branch. -/
def acquireCredentials (s : CredSession) : CredOutcome :=
  let u0 := s.env "EOG_USER"
  let username := match u0 with
    | some u => u
    | none => s.promptUsername
  let p0 := s.env "EOG_PASSWORD"
  let password := match p0 with
    | some p => p
    | none => s.promptPassword
  { username := username, password := password,
    promptedUsername := u0.isNone, promptedPassword := p0.isNone }

/-- The sequential stages of the notebook, in source order. -/
inductive Stage where
  | credentials
  | loadGrid
  | featureGen
  | loadModel
  | predictScores
  | binScores
  | exportOutput
  | exportWithFeatures
deriving DecidableEq, Repr

/-- The top-to-bottom execution order of the notebook's stages. -/
def stageOrder : List Stage :=
  [Stage.credentials, Stage.loadGrid, Stage.featureGen, Stage.loadModel,
   Stage.predictScores, Stage.binScores, Stage.exportOutput,
   Stage.exportWithFeatures]

/-- The files a stage writes when it runs (cells 28 and 29). -/
def outputFilesOf : Stage → List String
  | Stage.exportOutput => ["2023-02-21-my-rollout-output.geojson"]
  | Stage.exportWithFeatures => ["2023-02-21-my-rollout-output-with-features.geojson"]
  | _ => []

/-- The files written by a list of stages, in order. -/
def writtenFiles : List Stage → List String
  | [] => []
  | s :: rest => outputFilesOf s ++ writtenFiles rest

/-- Modelled from the spec: straight-line execution of the remaining stages
with no exception handler.  `failing` says which stages would raise (spec
section 7: standard library exceptions); a raising stage stops the run,
recording the executed stages, the files written, and the escaping stage.
The notebook installs no `try`/`except`, so nothing resumes after a raise. -/
def runStagesFrom (failing : Stage → Bool) : List Stage → List Stage × List String × Option Stage
  | [] => ([], [], none)
  | st :: rest =>
      if failing st then ([st], [], some st)
      else
        let r := runStagesFrom failing rest
        (st :: r.1, outputFilesOf st ++ r.2.1, r.2.2)

/-- One top-to-bottom run of the notebook script under a failure oracle. -/
def runScript (failing : Stage → Bool) : List Stage × List String × Option Stage :=
  runStagesFrom failing stageOrder

/-- Modelled from the spec: the GeoJSON value tree written by
`rollout_aoi.to_file(..., driver="GeoJSON")`. -/
inductive Json where
  | jstr : String → Json
  | jnum : Rat → Json
  | jarr : List Json → Json

/-- A coordinate pair as GeoJSON writes it. -/
def encodePoint (p : Rat × Rat) : Json :=
  Json.jarr [Json.jnum p.1, Json.jnum p.2]

/-- Recover a coordinate pair. -/
def decodePoint : Json → Option (Rat × Rat)
  | .jarr [.jnum x, .jnum y] => some (x, y)
  | _ => none

/-- Recover a coordinate list. -/
def decodePoints : List Json → Option (List (Rat × Rat))
  | [] => some []
  | j :: rest =>
      match decodePoint j, decodePoints rest with
      | some p, some ps => some (p :: ps)
      | _, _ => none

/-- Serialize one cell value. -/
def encodeValue : Value → Json
  | .str s => Json.jstr s
  | .num q => Json.jnum q
  | .geom pts => Json.jarr (pts.map encodePoint)

/-- Recover one cell value. -/
def decodeValue : Json → Option Value
  | .jstr s => some (Value.str s)
  | .jnum q => some (Value.num q)
  | .jarr js =>
      match decodePoints js with
      | some ps => some (Value.geom ps)
      | none => none

/-- Serialize one named cell. -/
def encodeField (kv : String × Value) : Json :=
  Json.jarr [Json.jstr kv.1, encodeValue kv.2]

/-- Recover one named cell. -/
def decodeField : Json → Option (String × Value)
  | .jarr [.jstr k, j] =>
      match decodeValue j with
      | some v => some (k, v)
      | none => none
  | _ => none

/-- Recover a row's cells. -/
def decodeFields : List Json → Option Row
  | [] => some []
  | j :: rest =>
      match decodeField j, decodeFields rest with
      | some kv, some r => some (kv :: r)
      | _, _ => none

/-- Serialize one feature row with its attributes and geometry. -/
def encodeRow (r : Row) : Json :=
  Json.jarr (r.map encodeField)

/-- Recover one feature row. -/
def decodeRow : Json → Option Row
  | .jarr js => decodeFields js
  | _ => none

/-- Recover the rows of a feature collection. -/
def decodeRows : List Json → Option Frame
  | [] => some []
  | j :: rest =>
      match decodeRow j, decodeRows rest with
      | some r, some rs => some (r :: rs)
      | _, _ => none

/-- Cell-28's writer: the exported file as a GeoJSON feature collection. -/
def writeGeojson (df : Frame) : Json :=
  Json.jarr (df.map encodeRow)

/-- `gpd.read_file` on an exported file: recover the dataframe. -/
def readGeojson : Json → Option Frame
  | .jarr js => decodeRows js
  | _ => none

end PovertyMapping

namespace PovertyMapping

theorem foldl_min_le_init (l : List Rat) (a : Rat) : l.foldl min a ≤ a := by
  induction l generalizing a with
  | nil => exact le_refl a
  | cons x t ih => exact le_trans (ih (min a x)) (min_le_left a x)

theorem foldl_min_le_mem (l : List Rat) (a v : Rat) (hv : v ∈ l) :
    l.foldl min a ≤ v := by
  induction l generalizing a with
  | nil => cases hv
  | cons x t ih =>
      rcases List.mem_cons.mp hv with h | h
      · subst h
        exact le_trans (foldl_min_le_init t (min a v)) (min_le_right a v)
      · exact ih (min a x) h

theorem init_le_foldl_max (l : List Rat) (a : Rat) : a ≤ l.foldl max a := by
  induction l generalizing a with
  | nil => exact le_refl a
  | cons x t ih => exact le_trans (le_max_left a x) (ih (max a x))

theorem mem_le_foldl_max (l : List Rat) (a v : Rat) (hv : v ∈ l) :
    v ≤ l.foldl max a := by
  induction l generalizing a with
  | nil => cases hv
  | cons x t ih =>
      rcases List.mem_cons.mp hv with h | h
      · subst h
        exact le_trans (le_max_right a v) (init_le_foldl_max t (max a v))
      · exact ih (max a x) h

theorem minMaxScale_mem_unit (xs : List Rat) (v : Rat) (hv : v ∈ minMaxScale xs) :
    0 ≤ v ∧ v ≤ 1 := by
  cases xs with
  | nil => simp [minMaxScale] at hv
  | cons x rest =>
      simp only [minMaxScale, List.mem_map] at hv
      obtain ⟨w, hw, hv⟩ := hv
      by_cases hrange : rest.foldl max x = rest.foldl min x
      · simp only [hrange, if_pos rfl] at hv
        subst hv
        exact ⟨le_refl 0, zero_le_one⟩
      · simp only [if_neg hrange] at hv
        subst hv
        have hlo : rest.foldl min x ≤ w := by
          rcases List.mem_cons.mp hw with h | h
          · subst h; exact foldl_min_le_init rest w
          · exact foldl_min_le_mem rest x w h
        have hhi : w ≤ rest.foldl max x := by
          rcases List.mem_cons.mp hw with h | h
          · subst h; exact init_le_foldl_max rest w
          · exact mem_le_foldl_max rest x w h
        have hlt : rest.foldl min x < rest.foldl max x :=
          lt_of_le_of_ne (le_trans hlo hhi) (fun h => hrange h.symm)
        have hpos : (0 : Rat) < rest.foldl max x - rest.foldl min x :=
          sub_pos.mpr hlt
        constructor
        · exact div_nonneg (sub_nonneg.mpr hlo) (le_of_lt hpos)
        · exact (div_le_one hpos).mpr (sub_le_sub_right hhi _)

@[simp]
theorem minMaxScale_length (xs : List Rat) : (minMaxScale xs).length = xs.length := by
  cases xs with
  | nil => rfl
  | cons x rest => simp [minMaxScale]

@[simp]
theorem buildFrame_length (n : Nat) (cols : List (String × List Rat)) :
    (buildFrame n cols).length = n := by
  simp [buildFrame]

@[simp]
theorem generate_features_length (rawFeatures : List (String × (Row → Rat)))
    (df : Frame) : (generate_features rawFeatures df).length = df.length := by
  simp [generate_features]

@[simp]
theorem getColumn_length (name : String) (df : Frame) :
    (getColumn name df).length = df.length := by
  simp [getColumn]

@[simp]
theorem categorize_wealth_index_length (scores : List Rat) :
    (categorize_wealth_index scores).length = scores.length := by
  simp [categorize_wealth_index]

@[simp]
theorem setColumn_length (name : String) (vs : List Value) (df : Frame) :
    (setColumn name vs df).length = min df.length vs.length := by
  simp [setColumn]

@[simp]
theorem binLabels_length (df : Frame) : (binLabels df).length = df.length := by
  simp [binLabels]

@[simp]
theorem binStep_length (df : Frame) : (binStep df).length = df.length := by
  simp [binStep]

@[simp]
theorem pipelineFeaturesFrame_length (rawFeatures : List (String × (Row → Rat)))
    (aoi0 : Frame) : (pipelineFeaturesFrame rawFeatures aoi0).length = aoi0.length := by
  simp [pipelineFeaturesFrame, splitCell, featuresCell, loadCell, frameCopy]

@[simp]
theorem pipelineScores_length (rawFeatures : List (String × (Row → Rat)))
    (rawScore : Row → Rat) (aoi0 : Frame) :
    (pipelineScores rawFeatures rawScore aoi0).length = aoi0.length := by
  simp [pipelineScores, predictWealth]

theorem runNotebook_features_eq (rawFeatures : List (String × (Row → Rat)))
    (rawScore : Row → Rat) (aoi0 : Frame) :
    (runNotebook rawFeatures rawScore aoi0).features =
      pipelineFeaturesFrame rawFeatures aoi0 := rfl

theorem runNotebook_rollout_eq (rawFeatures : List (String × (Row → Rat)))
    (rawScore : Row → Rat) (aoi0 : Frame) :
    (runNotebook rawFeatures rawScore aoi0).rollout_aoi =
      binStep (setColumn PRWI ((pipelineScores rawFeatures rawScore aoi0).map Value.num) aoi0) := rfl

theorem exportedFrame_eq (rawFeatures : List (String × (Row → Rat)))
    (rawScore : Row → Rat) (aoi0 : Frame) :
    exportedFrame rawFeatures rawScore aoi0 =
      binStep (setColumn PRWI ((pipelineScores rawFeatures rawScore aoi0).map Value.num) aoi0) := rfl

/-- Claim C10: the loaded grid dataframe `aoi` is never mutated after it is
read: every enrichment, prediction, binning and export step writes only to
the copy `rollout_aoi` created by `aoi.copy()`, so after the whole pipeline
the `aoi` variable still holds exactly the loaded rows. -/
theorem aoi_never_mutated (rawFeatures : List (String × (Row → Rat)))
    (rawScore : Row → Rat) (aoi0 : Frame) :
    (runNotebook rawFeatures rawScore aoi0).aoi = aoi0 := rfl

/-- Claim C3: the row count `n` of the input grid is invariant through every
stage: the features dataframe returned by `generate_features` has `n` rows,
the features kept after cell-15 have `n` rows, the dataframe after
prediction and binning has `n` rows, and the exported GeoJSON has `n` rows. -/
theorem row_count_preserved (rawFeatures : List (String × (Row → Rat)))
    (rawScore : Row → Rat) (aoi0 : Frame) :
    (generate_features rawFeatures (frameCopy aoi0)).length = aoi0.length ∧
    (runNotebook rawFeatures rawScore aoi0).features.length = aoi0.length ∧
    (runNotebook rawFeatures rawScore aoi0).rollout_aoi.length = aoi0.length ∧
    (exportedFrame rawFeatures rawScore aoi0).length = aoi0.length := by
  refine ⟨by simp [frameCopy], ?_, ?_, ?_⟩
  · rw [runNotebook_features_eq]; simp
  · rw [runNotebook_rollout_eq]; simp
  · rw [exportedFrame_eq]; simp

theorem getCell_setCol_ne (name name' : String) (h : name ≠ name') (v : Value)
    (r : Row) : getCell name (setCol name' v r) = getCell name r := by
  induction r with
  | nil => simp [setCol, getCell, Ne.symm h]
  | cons kv r ih =>
      by_cases hk : kv.1 = name'
      · simp [setCol, hk, getCell, Ne.symm h]
      · simp only [setCol, if_neg hk, getCell]
        by_cases hn : kv.1 = name
        · simp [hn]
        · simp [hn, ih]

theorem getCell_setCol_self (name : String) (v : Value) (r : Row) :
    getCell name (setCol name v r) = v := by
  induction r with
  | nil => simp [setCol, getCell]
  | cons kv r ih =>
      by_cases hk : kv.1 = name
      · simp [setCol, hk, getCell]
      · simp [setCol, hk, getCell, ih]

theorem setCol_of_not_mem (name : String) (v : Value) (r : Row)
    (h : name ∉ r.map Prod.fst) : setCol name v r = r ++ [(name, v)] := by
  induction r with
  | nil => rfl
  | cons kv r ih =>
      simp only [List.map_cons, List.mem_cons] at h
      push_neg at h
      have hne : ¬ kv.1 = name := fun hc => h.1 hc.symm
      simp [setCol, hne, ih h.2]

theorem setCol_setCol_same (name : String) (v v' : Value) (r : Row) :
    setCol name v (setCol name v' r) = setCol name v r := by
  induction r with
  | nil => simp [setCol]
  | cons kv r ih =>
      by_cases hk : kv.1 = name
      · simp [setCol, hk]
      · simp [setCol, hk, ih]

theorem getColumn_setColumn_ne (name name' : String) (h : name ≠ name')
    (vs : List Value) (df : Frame) (hlen : vs.length = df.length) :
    getColumn name (setColumn name' vs df) = getColumn name df := by
  induction df generalizing vs with
  | nil => cases vs <;> simp_all [setColumn, getColumn]
  | cons r df ih =>
      cases vs with
      | nil => simp at hlen
      | cons v vs =>
          simp only [setColumn, List.zipWith_cons_cons, getColumn, List.map_cons]
          rw [getCell_setCol_ne name name' h]
          have := ih vs (by simpa using hlen)
          simp only [setColumn, getColumn] at this
          rw [this]

theorem getColumn_setColumn_self (name : String) (vs : List Value) (df : Frame)
    (hlen : vs.length = df.length) :
    getColumn name (setColumn name vs df) = vs := by
  induction df generalizing vs with
  | nil => cases vs <;> simp_all [setColumn, getColumn]
  | cons r df ih =>
      cases vs with
      | nil => simp at hlen
      | cons v vs =>
          simp only [setColumn, List.zipWith_cons_cons, getColumn, List.map_cons]
          rw [getCell_setCol_self]
          have := ih vs (by simpa using hlen)
          simp only [setColumn, getColumn] at this
          rw [this]

theorem setColumn_setColumn_same (name : String) (vs : List Value) (df : Frame) :
    setColumn name vs (setColumn name vs df) = setColumn name vs df := by
  induction df generalizing vs with
  | nil => simp [setColumn]
  | cons r df ih =>
      cases vs with
      | nil => simp [setColumn]
      | cons v vs =>
          simp only [setColumn, List.zipWith_cons_cons]
          rw [setCol_setCol_same]
          have := ih vs
          simp only [setColumn] at this
          rw [this]

theorem getColumn_binStep (df : Frame) :
    getColumn PRWI (binStep df) = getColumn PRWI df := by
  unfold binStep
  exact getColumn_setColumn_ne PRWI PWC (by decide) _ df (binLabels_length df)

theorem binLabels_binStep (df : Frame) : binLabels (binStep df) = binLabels df := by
  unfold binLabels
  rw [getColumn_binStep]

/-- Claim C4: binning is idempotent: applying the binning cell a second time
to the unchanged dataframe reads the same score column (hence computes the
same quintile thresholds) and assigns every row the same label, leaving the
dataframe unchanged. -/
theorem binning_idempotent (df : Frame) :
    binStep (binStep df) = binStep df ∧
    getColumn PRWI (binStep df) = getColumn PRWI df := by
  constructor
  · conv_lhs => rw [binStep, binLabels_binStep]
    rw [show binStep df = setColumn PWC (binLabels df) df from rfl,
      setColumn_setColumn_same]
  · exact getColumn_binStep df

theorem decodePoint_encodePoint (p : Rat × Rat) :
    decodePoint (encodePoint p) = some p := by
  cases p
  rfl

theorem decodePoints_encode (l : List (Rat × Rat)) :
    decodePoints (l.map encodePoint) = some l := by
  induction l with
  | nil => rfl
  | cons p l ih => simp [decodePoints, decodePoint_encodePoint, ih]

theorem decodeValue_encodeValue (v : Value) : decodeValue (encodeValue v) = some v := by
  cases v with
  | str s => rfl
  | num q => rfl
  | geom pts => simp [encodeValue, decodeValue, decodePoints_encode]

theorem decodeField_encodeField (kv : String × Value) :
    decodeField (encodeField kv) = some kv := by
  cases kv with
  | mk k v => simp [encodeField, decodeField, decodeValue_encodeValue]

theorem decodeFields_encode (r : Row) :
    decodeFields (r.map encodeField) = some r := by
  induction r with
  | nil => rfl
  | cons kv r ih => simp [decodeFields, decodeField_encodeField, ih]

theorem decodeRow_encodeRow (r : Row) : decodeRow (encodeRow r) = some r := by
  simp [encodeRow, decodeRow, decodeFields_encode]

theorem decodeRows_encode (df : Frame) :
    decodeRows (df.map encodeRow) = some df := by
  induction df with
  | nil => rfl
  | cons r df ih => simp [decodeRows, decodeRow_encodeRow, ih]

/-- Claim C6: the GeoJSON export round-trips: reading the exported file back
yields a dataframe whose geometries and attribute values (all original
columns, the wealth score and the wealth category) equal those of the
dataframe that was written. -/
theorem geojson_round_trip (df : Frame) : readGeojson (writeGeojson df) = some df := by
  simp [writeGeojson, readGeojson, decodeRows_encode]

/-- Claim C7: credential acquisition reads the username from `EOG_USER` and
the password from `EOG_PASSWORD`; for each of the two, a prompt is issued if
and only if the variable is unset, and a set value is used exactly, with no
prompt. -/
theorem credentials_env_or_prompt (s : CredSession) :
    (∀ u, s.env "EOG_USER" = some u →
      (acquireCredentials s).username = u ∧
      (acquireCredentials s).promptedUsername = false) ∧
    (s.env "EOG_USER" = none →
      (acquireCredentials s).username = s.promptUsername ∧
      (acquireCredentials s).promptedUsername = true) ∧
    (∀ p, s.env "EOG_PASSWORD" = some p →
      (acquireCredentials s).password = p ∧
      (acquireCredentials s).promptedPassword = false) ∧
    (s.env "EOG_PASSWORD" = none →
      (acquireCredentials s).password = s.promptPassword ∧
      (acquireCredentials s).promptedPassword = true) := by
  refine ⟨?_, ?_, ?_, ?_⟩
  · intro u hu
    simp [acquireCredentials, hu]
  · intro hu
    simp [acquireCredentials, hu]
  · intro p hp
    simp [acquireCredentials, hp]
  · intro hp
    simp [acquireCredentials, hp]

theorem credentials_env_or_prompt_witness :
    (acquireCredentials
      { env := fun n => if n = "EOG_USER" then some "alice" else none,
        promptUsername := "typedName", promptPassword := "typedSecret" }).username = "alice" ∧
    (acquireCredentials
      { env := fun n => if n = "EOG_USER" then some "alice" else none,
        promptUsername := "typedName", promptPassword := "typedSecret" }).promptedUsername = false ∧
    (acquireCredentials
      { env := fun n => if n = "EOG_USER" then some "alice" else none,
        promptUsername := "typedName", promptPassword := "typedSecret" }).password = "typedSecret" ∧
    (acquireCredentials
      { env := fun n => if n = "EOG_USER" then some "alice" else none,
        promptUsername := "typedName", promptPassword := "typedSecret" }).promptedPassword = true := by
  have h := credentials_env_or_prompt
    { env := fun n => if n = "EOG_USER" then some "alice" else none,
      promptUsername := "typedName", promptPassword := "typedSecret" }
  exact ⟨(h.1 "alice" (by decide)).1, (h.1 "alice" (by decide)).2,
    (h.2.2.2 (by decide)).1, (h.2.2.2 (by decide)).2⟩

theorem runStagesFrom_fail (failing : Stage → Bool) (st : Stage)
    (post : List Stage) (pre : List Stage)
    (hpre : ∀ s ∈ pre, failing s = false) (hst : failing st = true) :
    runStagesFrom failing (pre ++ st :: post) =
      (pre ++ [st], writtenFiles pre, some st) := by
  induction pre with
  | nil => simp [runStagesFrom, hst, writtenFiles]
  | cons a pre ih =>
      have ha : failing a = false := hpre a (List.mem_cons_self a pre)
      have ih' := ih (fun s hs => hpre s (List.mem_cons_of_mem a hs))
      simp [runStagesFrom, ha, ih', writtenFiles]

/-- Claim C9: the script installs no exception handlers: an exception raised
by any stage escapes as the run's result, the stages after the failing one
never execute (each executed stage appears exactly once, no retries), and no
output file of a later stage is written. -/
theorem failure_halts_script (failing : Stage → Bool) (pre : List Stage)
    (st : Stage) (post : List Stage)
    (horder : stageOrder = pre ++ st :: post)
    (hpre : ∀ s ∈ pre, failing s = false) (hst : failing st = true) :
    runScript failing = (pre ++ [st], writtenFiles pre, some st) ∧
    (pre ++ [st]).Nodup := by
  constructor
  · rw [runScript, horder]
    exact runStagesFrom_fail failing st post pre hpre hst
  · have hnd : stageOrder.Nodup := by decide
    rw [horder] at hnd
    have hsub : (pre ++ [st]).Sublist (pre ++ st :: post) := by
      refine List.Sublist.append_left ?_ pre
      exact List.cons_sublist_cons.mpr (List.nil_sublist post)
    exact hsub.nodup hnd

theorem failure_halts_script_witness :
    runScript (fun s => decide (s = Stage.loadModel)) =
      ([Stage.credentials, Stage.loadGrid, Stage.featureGen] ++ [Stage.loadModel],
       writtenFiles [Stage.credentials, Stage.loadGrid, Stage.featureGen],
       some Stage.loadModel) ∧
    ([Stage.credentials, Stage.loadGrid, Stage.featureGen] ++ [Stage.loadModel]).Nodup :=
  failure_halts_script (fun s => decide (s = Stage.loadModel))
    [Stage.credentials, Stage.loadGrid, Stage.featureGen] Stage.loadModel
    [Stage.predictScores, Stage.binScores, Stage.exportOutput, Stage.exportWithFeatures]
    (by decide) (by decide) (by decide)

/-- Claim C1: every value stored in the `Predicted Relative Wealth Index`
column of the exported rollout grid (the output of `model.predict` on the
scaled feature matrix) lies in the closed interval [0, 1]. -/
theorem predicted_index_in_unit_interval (rawFeatures : List (String × (Row → Rat)))
    (rawScore : Row → Rat) (aoi0 : Frame) (v : Value)
    (hv : v ∈ getColumn PRWI (exportedFrame rawFeatures rawScore aoi0)) :
    ∃ q : Rat, v = Value.num q ∧ 0 ≤ q ∧ q ≤ 1 := by
  rw [exportedFrame_eq, getColumn_binStep,
    getColumn_setColumn_self PRWI _ aoi0 (by simp)] at hv
  obtain ⟨q, hq, rfl⟩ := List.mem_map.mp hv
  refine ⟨q, rfl, ?_⟩
  exact minMaxScale_mem_unit _ q hq

theorem predicted_index_in_unit_interval_witness :
    Value.num 0 ∈ getColumn PRWI (exportedFrame [] (fun _ => 0) [[]]) ∧
    ∃ q : Rat, Value.num 0 = Value.num q ∧ 0 ≤ q ∧ q ≤ 1 :=
  ⟨by decide, predicted_index_in_unit_interval [] (fun _ => 0) [[]] (Value.num 0) (by decide)⟩

/-- Claim C8: every value of every scaled feature column produced by
`generate_features` with the MinMax scaler (the columns suffixed `_scaled`
that are passed to the model) lies in the closed interval [0, 1]. -/
theorem scaled_features_in_unit_interval (rawFeatures : List (String × (Row → Rat)))
    (df : Frame) (name : String) (vs : List Rat)
    (hcol : (name, vs) ∈ scaledColumns rawFeatures df)
    (v : Rat) (hv : v ∈ vs) : 0 ≤ v ∧ v ≤ 1 := by
  obtain ⟨nf, hnf, heq⟩ := List.mem_map.mp hcol
  have hvs : vs = minMaxScale (df.map nf.2) := (congrArg Prod.snd heq).symm
  subst hvs
  exact minMaxScale_mem_unit _ v hv

theorem scaled_features_in_unit_interval_witness :
    (("poi_count_scaled", [(0 : Rat)]) ∈
      scaledColumns [("poi_count", fun _ => (1 : Rat))] [[]]) ∧
    (0 : Rat) ∈ [(0 : Rat)] ∧
    (0 ≤ (0 : Rat) ∧ (0 : Rat) ≤ 1) :=
  ⟨by decide, by decide,
    scaled_features_in_unit_interval [("poi_count", fun _ => (1 : Rat))] [[]]
      "poi_count_scaled" [(0 : Rat)] (by decide) 0 (by decide)⟩

theorem setColumn_forall2 (name : String) (P : Value → Prop) (vs : List Value)
    (df : Frame) (hlen : vs.length = df.length)
    (hk : ∀ r ∈ df, name ∉ r.map Prod.fst) (hP : ∀ v ∈ vs, P v) :
    List.Forall₂ (fun r e => ∃ v, P v ∧ e = r ++ [(name, v)]) df
      (setColumn name vs df) := by
  induction df generalizing vs with
  | nil => cases vs <;> simp_all [setColumn]
  | cons r df ih =>
      cases vs with
      | nil => simp at hlen
      | cons v vs =>
          simp only [setColumn, List.zipWith_cons_cons]
          refine List.Forall₂.cons ?_ ?_
          · exact ⟨v, hP v (List.mem_cons_self v vs),
              setCol_of_not_mem name v r (hk r (List.mem_cons_self r df))⟩
          · have := ih vs (by simpa using hlen)
              (fun r' hr' => hk r' (List.mem_cons_of_mem r hr'))
              (fun v' hv' => hP v' (List.mem_cons_of_mem v hv'))
            simpa [setColumn] using this

theorem forall2_mem_right {α β : Type} {R : α → β → Prop} {l1 : List α}
    {l2 : List β} (h : List.Forall₂ R l1 l2) (b : β) (hb : b ∈ l2) :
    ∃ a ∈ l1, R a b := by
  induction h with
  | nil => cases hb
  | cons hab htail ih =>
      rcases List.mem_cons.mp hb with hb | hb
      · subst hb
        exact ⟨_, List.mem_cons_self _ _, hab⟩
      · obtain ⟨a, ha, har⟩ := ih hb
        exact ⟨a, List.mem_cons_of_mem _ ha, har⟩

theorem forall2_trans_comp {α β γ : Type} {R : α → β → Prop} {S : β → γ → Prop}
    {T : α → γ → Prop} (h : ∀ a b c, R a b → S b c → T a c) :
    ∀ {l1 : List α} {l2 : List β} {l3 : List γ},
      List.Forall₂ R l1 l2 → List.Forall₂ S l2 l3 → List.Forall₂ T l1 l3 := by
  intro l1 l2 l3 h12
  induction h12 generalizing l3 with
  | nil =>
      intro h23
      cases h23
      exact List.Forall₂.nil
  | cons hab htail ih =>
      intro h23
      cases h23 with
      | cons hbc h23' => exact List.Forall₂.cons (h _ _ _ hab hbc) (ih h23')

/-- Claim C5: the first exported GeoJSON holds exactly the 8 input grid
columns with values unchanged, plus exactly two appended columns: the
continuous `Predicted Relative Wealth Index` and the categorical
`Predicted Wealth Category (quintile)`; no other column is added, removed or
modified. -/
theorem export_adds_exactly_two_columns (rawFeatures : List (String × (Row → Rat)))
    (rawScore : Row → Rat) (aoi0 : Frame)
    (h : ∀ r ∈ aoi0, r.map Prod.fst = gridColumns) :
    List.Forall₂
      (fun r e => ∃ p c, e = r ++ [(PRWI, Value.num p), (PWC, Value.str c)])
      aoi0 (exportedFrame rawFeatures rawScore aoi0) := by
  rw [exportedFrame_eq]
  have h1 : List.Forall₂
      (fun r e => ∃ v, (∃ p, v = Value.num p) ∧ e = r ++ [(PRWI, v)]) aoi0
      (setColumn PRWI ((pipelineScores rawFeatures rawScore aoi0).map Value.num) aoi0) := by
    refine setColumn_forall2 PRWI _ _ aoi0 (by simp) ?_ ?_
    · intro r hr
      rw [h r hr]
      decide
    · intro v hv
      obtain ⟨q, _, rfl⟩ := List.mem_map.mp hv
      exact ⟨q, rfl⟩
  have h2 : List.Forall₂
      (fun e1 e2 => ∃ v, (∃ c, v = Value.str c) ∧ e2 = e1 ++ [(PWC, v)])
      (setColumn PRWI ((pipelineScores rawFeatures rawScore aoi0).map Value.num) aoi0)
      (binStep (setColumn PRWI ((pipelineScores rawFeatures rawScore aoi0).map Value.num) aoi0)) := by
    rw [show binStep (setColumn PRWI ((pipelineScores rawFeatures rawScore aoi0).map Value.num) aoi0) =
      setColumn PWC (binLabels (setColumn PRWI ((pipelineScores rawFeatures rawScore aoi0).map Value.num) aoi0))
        (setColumn PRWI ((pipelineScores rawFeatures rawScore aoi0).map Value.num) aoi0) from rfl]
    refine setColumn_forall2 PWC _ _ _ (binLabels_length _) ?_ ?_
    · intro e he
      obtain ⟨r, hr, v, _, rfl⟩ := forall2_mem_right h1 e he
      simp only [List.map_append, h r hr, List.map_cons, List.map_nil]
      decide
    · intro v hv
      obtain ⟨c, _, rfl⟩ := List.mem_map.mp hv
      exact ⟨catToString c, rfl⟩
  refine forall2_trans_comp ?_ h1 h2
  intro r e1 e2 hre1 he1e2
  obtain ⟨v, ⟨p, rfl⟩, rfl⟩ := hre1
  obtain ⟨w, ⟨c, rfl⟩, rfl⟩ := he1e2
  exact ⟨p, c, by simp⟩

theorem export_adds_exactly_two_columns_witness :
    (∀ r ∈ [[("quadkey", Value.str "13223202222021"),
        ("shapeName", Value.str "Klang"), ("shapeISO", Value.str ""),
        ("shapeID", Value.str "MYS-ADM2"), ("shapeGroup", Value.str "MYS"),
        ("shapeType", Value.str "ADM2"), ("pop_count", Value.num 1948),
        ("geometry", Value.geom [])]], r.map Prod.fst = gridColumns) ∧
    List.Forall₂
      (fun r e => ∃ p c, e = r ++ [(PRWI, Value.num p), (PWC, Value.str c)])
      [[("quadkey", Value.str "13223202222021"),
        ("shapeName", Value.str "Klang"), ("shapeISO", Value.str ""),
        ("shapeID", Value.str "MYS-ADM2"), ("shapeGroup", Value.str "MYS"),
        ("shapeType", Value.str "ADM2"), ("pop_count", Value.num 1948),
        ("geometry", Value.geom [])]]
      (exportedFrame [] (fun _ => 0)
        [[("quadkey", Value.str "13223202222021"),
          ("shapeName", Value.str "Klang"), ("shapeISO", Value.str ""),
          ("shapeID", Value.str "MYS-ADM2"), ("shapeGroup", Value.str "MYS"),
          ("shapeType", Value.str "ADM2"), ("pop_count", Value.num 1948),
          ("geometry", Value.geom [])]]) :=
  ⟨by decide,
    export_adds_exactly_two_columns [] (fun _ => 0)
      [[("quadkey", Value.str "13223202222021"),
        ("shapeName", Value.str "Klang"), ("shapeISO", Value.str ""),
        ("shapeID", Value.str "MYS-ADM2"), ("shapeGroup", Value.str "MYS"),
        ("shapeType", Value.str "ADM2"), ("pop_count", Value.num 1948),
        ("geometry", Value.geom [])]] (by decide)⟩

theorem strictRank_lt_length (s : List Rat) (v : Rat) (hv : v ∈ s) :
    strictRank s v < s.length := by
  unfold strictRank
  induction s with
  | nil => cases hv
  | cons x t ih =>
      simp only [List.length_cons]
      rcases List.mem_cons.mp hv with h | h
      · subst h
        rw [List.countP_cons_of_neg _ _ (by simp)]
        have h1 : t.countP (fun w => decide (w < v)) ≤ t.length :=
          List.countP_le_length _
        omega
      · have h1 := ih h
        by_cases hx : x < v
        · rw [List.countP_cons_of_pos _ _ (by simpa using hx)]
          have h2 : t.countP (fun w => decide (w < v)) ≤ t.length :=
            List.countP_le_length _
          omega
        · rw [List.countP_cons_of_neg _ _ (by simpa using hx)]
          omega

theorem strictRank_strict_mono (s : List Rat) (v w : Rat) (hv : v ∈ s)
    (hvw : v < w) : strictRank s v < strictRank s w := by
  unfold strictRank
  induction s with
  | nil => cases hv
  | cons x t ih =>
      have hmono : t.countP (fun y => decide (y < v)) ≤
          t.countP (fun y => decide (y < w)) := by
        refine List.countP_mono_left ?_
        intro y _ hy
        simp only [decide_eq_true_eq] at hy ⊢
        exact lt_trans hy hvw
      rcases List.mem_cons.mp hv with h | h
      · subst h
        rw [List.countP_cons_of_neg _ _ (by simp),
          List.countP_cons_of_pos _ _ (by simpa using hvw)]
        omega
      · have h1 := ih h
        by_cases hx : x < v
        · have hx2 : x < w := lt_trans hx hvw
          rw [List.countP_cons_of_pos _ _ (by simpa using hx),
            List.countP_cons_of_pos _ _ (by simpa using hx2)]
          omega
        · rw [List.countP_cons_of_neg _ _ (by simpa using hx)]
          by_cases hx2 : x < w
          · rw [List.countP_cons_of_pos _ _ (by simpa using hx2)]
            omega
          · rw [List.countP_cons_of_neg _ _ (by simpa using hx2)]
            omega

theorem strictRank_inj_on (s : List Rat) (v w : Rat) (hv : v ∈ s) (hw : w ∈ s)
    (h : strictRank s v = strictRank s w) : v = w := by
  rcases lt_trichotomy v w with hlt | heq | hgt
  · exact absurd h (Nat.ne_of_lt (strictRank_strict_mono s v w hv hlt))
  · exact heq
  · exact absurd h.symm (Nat.ne_of_lt (strictRank_strict_mono s w v hw hgt))

theorem ranks_perm_range (s : List Rat) (hs : s.Nodup) :
    (s.map (strictRank s)).Perm (List.range s.length) := by
  have hnd : (s.map (strictRank s)).Nodup :=
    List.Nodup.map_on (fun x hx y hy hxy => strictRank_inj_on s x y hx hy hxy) hs
  have hsub : (s.map (strictRank s)) ⊆ List.range s.length := by
    intro r hr
    obtain ⟨v, hv, rfl⟩ := List.mem_map.mp hr
    exact List.mem_range.mpr (strictRank_lt_length s v hv)
  have hsp : List.Subperm (s.map (strictRank s)) (List.range s.length) :=
    List.subperm_of_subset hnd hsub
  exact hsp.perm_of_length_le (by simp)

theorem categorize_perm_range (s : List Rat) (hs : s.Nodup) :
    (categorize_wealth_index s).Perm
      ((List.range s.length).map (quintileLabel s.length)) := by
  have h := (ranks_perm_range s hs).map (quintileLabel s.length)
  rw [List.map_map] at h
  exact h

theorem quintileLabel_eq_E_iff (n r : Nat) :
    quintileLabel n r = WealthCat.E ↔ 5 * r < n := by
  unfold quintileLabel
  split_ifs with h1 h2 h3 h4
  · exact iff_of_true rfl h1
  · exact iff_of_false (by decide) h1
  · exact iff_of_false (by decide) h1
  · exact iff_of_false (by decide) h1
  · exact iff_of_false (by decide) h1

theorem quintileLabel_eq_D_iff (n r : Nat) :
    quintileLabel n r = WealthCat.D ↔ n ≤ 5 * r ∧ 5 * r < 2 * n := by
  unfold quintileLabel
  split_ifs with h1 h2 h3 h4
  · exact iff_of_false (by decide) (by omega)
  · exact iff_of_true rfl (by omega)
  · exact iff_of_false (by decide) (by omega)
  · exact iff_of_false (by decide) (by omega)
  · exact iff_of_false (by decide) (by omega)

theorem quintileLabel_eq_C_iff (n r : Nat) :
    quintileLabel n r = WealthCat.C ↔ 2 * n ≤ 5 * r ∧ 5 * r < 3 * n := by
  unfold quintileLabel
  split_ifs with h1 h2 h3 h4
  · exact iff_of_false (by decide) (by omega)
  · exact iff_of_false (by decide) (by omega)
  · exact iff_of_true rfl (by omega)
  · exact iff_of_false (by decide) (by omega)
  · exact iff_of_false (by decide) (by omega)

theorem quintileLabel_eq_B_iff (n r : Nat) :
    quintileLabel n r = WealthCat.B ↔ 3 * n ≤ 5 * r ∧ 5 * r < 4 * n := by
  unfold quintileLabel
  split_ifs with h1 h2 h3 h4
  · exact iff_of_false (by decide) (by omega)
  · exact iff_of_false (by decide) (by omega)
  · exact iff_of_false (by decide) (by omega)
  · exact iff_of_true rfl (by omega)
  · exact iff_of_false (by decide) (by omega)

theorem quintileLabel_eq_A_iff (n r : Nat) :
    quintileLabel n r = WealthCat.A ↔ 4 * n ≤ 5 * r := by
  unfold quintileLabel
  split_ifs with h1 h2 h3 h4
  · exact iff_of_false (by decide) (by omega)
  · exact iff_of_false (by decide) (by omega)
  · exact iff_of_false (by decide) (by omega)
  · exact iff_of_false (by decide) (by omega)
  · exact iff_of_true rfl (by omega)

theorem countE_range (n m : Nat) :
    (List.range m).countP (fun r => decide (quintileLabel n r = WealthCat.E)) =
      min m ((n + 4) / 5) := by
  induction m with
  | zero => simp
  | succ m ih =>
      rw [List.range_succ, List.countP_append, ih]
      by_cases h : 5 * m < n
      · have hl : quintileLabel n m = WealthCat.E := (quintileLabel_eq_E_iff n m).mpr h
        simp only [List.countP_cons, List.countP_nil, hl]
        simp
        omega
      · have hl : ¬ quintileLabel n m = WealthCat.E :=
          fun hc => h ((quintileLabel_eq_E_iff n m).mp hc)
        simp only [List.countP_cons, List.countP_nil, hl]
        simp [hl]
        omega

theorem countD_range (n m : Nat) :
    (List.range m).countP (fun r => decide (quintileLabel n r = WealthCat.D)) =
      min m ((2 * n + 4) / 5) - min m ((n + 4) / 5) := by
  induction m with
  | zero => simp
  | succ m ih =>
      rw [List.range_succ, List.countP_append, ih]
      by_cases h : n ≤ 5 * m ∧ 5 * m < 2 * n
      · have hl : quintileLabel n m = WealthCat.D := (quintileLabel_eq_D_iff n m).mpr h
        simp only [List.countP_cons, List.countP_nil, hl]
        simp
        omega
      · have hl : ¬ quintileLabel n m = WealthCat.D :=
          fun hc => h ((quintileLabel_eq_D_iff n m).mp hc)
        simp only [List.countP_cons, List.countP_nil]
        simp [hl]
        omega

theorem countC_range (n m : Nat) :
    (List.range m).countP (fun r => decide (quintileLabel n r = WealthCat.C)) =
      min m ((3 * n + 4) / 5) - min m ((2 * n + 4) / 5) := by
  induction m with
  | zero => simp
  | succ m ih =>
      rw [List.range_succ, List.countP_append, ih]
      by_cases h : 2 * n ≤ 5 * m ∧ 5 * m < 3 * n
      · have hl : quintileLabel n m = WealthCat.C := (quintileLabel_eq_C_iff n m).mpr h
        simp only [List.countP_cons, List.countP_nil, hl]
        simp
        omega
      · have hl : ¬ quintileLabel n m = WealthCat.C :=
          fun hc => h ((quintileLabel_eq_C_iff n m).mp hc)
        simp only [List.countP_cons, List.countP_nil]
        simp [hl]
        omega

theorem countB_range (n m : Nat) :
    (List.range m).countP (fun r => decide (quintileLabel n r = WealthCat.B)) =
      min m ((4 * n + 4) / 5) - min m ((3 * n + 4) / 5) := by
  induction m with
  | zero => simp
  | succ m ih =>
      rw [List.range_succ, List.countP_append, ih]
      by_cases h : 3 * n ≤ 5 * m ∧ 5 * m < 4 * n
      · have hl : quintileLabel n m = WealthCat.B := (quintileLabel_eq_B_iff n m).mpr h
        simp only [List.countP_cons, List.countP_nil, hl]
        simp
        omega
      · have hl : ¬ quintileLabel n m = WealthCat.B :=
          fun hc => h ((quintileLabel_eq_B_iff n m).mp hc)
        simp only [List.countP_cons, List.countP_nil]
        simp [hl]
        omega

theorem countA_range (n m : Nat) :
    (List.range m).countP (fun r => decide (quintileLabel n r = WealthCat.A)) =
      m - min m ((4 * n + 4) / 5) := by
  induction m with
  | zero => simp
  | succ m ih =>
      rw [List.range_succ, List.countP_append, ih]
      by_cases h : 4 * n ≤ 5 * m
      · have hl : quintileLabel n m = WealthCat.A := (quintileLabel_eq_A_iff n m).mpr h
        simp only [List.countP_cons, List.countP_nil, hl]
        simp
        omega
      · have hl : ¬ quintileLabel n m = WealthCat.A :=
          fun hc => h ((quintileLabel_eq_A_iff n m).mp hc)
        simp only [List.countP_cons, List.countP_nil]
        simp [hl]
        omega

/-- Claim C2: `categorize_wealth_index` assigns every row exactly one of the
five ordinal labels A, B, C, D, E, and on a column of pairwise-distinct
scores (the "up to ties" proviso) every label's frequency lies between
`n / 5` rounded down and rounded up: the five labels partition the rows into
equal-frequency quintile bins. -/
theorem categorize_wealth_index_quintile_partition (s : List Rat) (hs : s.Nodup) :
    (categorize_wealth_index s).length = s.length ∧
    (∀ c ∈ categorize_wealth_index s,
      c = WealthCat.A ∨ c = WealthCat.B ∨ c = WealthCat.C ∨
      c = WealthCat.D ∨ c = WealthCat.E) ∧
    (∀ k : WealthCat,
      s.length / 5 ≤
        (categorize_wealth_index s).countP (fun c => decide (c = k)) ∧
      (categorize_wealth_index s).countP (fun c => decide (c = k)) ≤
        (s.length + 4) / 5) := by
  refine ⟨by simp, ?_, ?_⟩
  · intro c _
    cases c <;> simp
  · intro k
    have hperm := categorize_perm_range s hs
    rw [hperm.countP_eq, List.countP_map]
    cases k
    · rw [show ((fun c => decide (c = WealthCat.A)) ∘ quintileLabel s.length) =
        (fun r => decide (quintileLabel s.length r = WealthCat.A)) from rfl,
        countA_range]
      omega
    · rw [show ((fun c => decide (c = WealthCat.B)) ∘ quintileLabel s.length) =
        (fun r => decide (quintileLabel s.length r = WealthCat.B)) from rfl,
        countB_range]
      omega
    · rw [show ((fun c => decide (c = WealthCat.C)) ∘ quintileLabel s.length) =
        (fun r => decide (quintileLabel s.length r = WealthCat.C)) from rfl,
        countC_range]
      omega
    · rw [show ((fun c => decide (c = WealthCat.D)) ∘ quintileLabel s.length) =
        (fun r => decide (quintileLabel s.length r = WealthCat.D)) from rfl,
        countD_range]
      omega
    · rw [show ((fun c => decide (c = WealthCat.E)) ∘ quintileLabel s.length) =
        (fun r => decide (quintileLabel s.length r = WealthCat.E)) from rfl,
        countE_range]
      omega

theorem categorize_wealth_index_quintile_partition_witness :
    ([(0 : Rat), 1, 2, 3, 4] : List Rat).Nodup ∧
    (∀ k : WealthCat,
      ([(0 : Rat), 1, 2, 3, 4] : List Rat).length / 5 ≤
        (categorize_wealth_index [(0 : Rat), 1, 2, 3, 4]).countP
          (fun c => decide (c = k)) ∧
      (categorize_wealth_index [(0 : Rat), 1, 2, 3, 4]).countP
          (fun c => decide (c = k)) ≤
        (([(0 : Rat), 1, 2, 3, 4] : List Rat).length + 4) / 5) :=
  ⟨by decide,
    (categorize_wealth_index_quintile_partition [0, 1, 2, 3, 4] (by decide)).2.2⟩

end PovertyMapping
